import Mathlib

/-!
Shallow embedding of the persistence, migration and CRUD core of the
MyPortfolio.FI portfolio writer.

The source is a React application.  The parts modelled here are:

* the schema migration helper processLoadedData (src/App.tsx, revision at
  lines 544-574), working on untyped JSON values;
* the typed document model (src/types.ts) and the CRUD handlers of the
  revision at src/App.tsx lines 268-378 (handleAddNewTopic,
  handleAddNewEntry, handleUpdateEntry, handleDeleteEntry,
  handleDeleteTopic);
* the IndexedDB adapter (src/services/storageService.ts) and the Google
  Drive adapter (src/services/googleDriveService.ts, savePortfolioToDrive
  and loadPortfolioFromDrive);
* the debounced editor update logic (triggerUpdate / handleManualSave in
  the Editor component, src/unnamed/part_000 lines 301-340);
* the import flow handleFileSelected (src/App.tsx lines 659-687) and the
  external-modification check checkForExternalChanges (src/App.tsx lines
  1085-1130).

Timestamps (Date.now, toISOString) and freshly generated ids are passed in
as explicit parameters; browser storage is explicit state.
-/

/-- Untyped JSON value, the argument type of processLoadedData. -/
inductive Json where
  | null : Json
  | bool (b : Bool) : Json
  | num (n : Int) : Json
  | str (s : String) : Json
  | arr (elems : List Json) : Json
  | obj (fields : List (String × Json)) : Json

/-- Field lookup in an object literal's field list. -/
def Json.lookupField : List (String × Json) → String → Option Json
  | [], _ => none
  | (k, v) :: rest, key => if k = key then some v else Json.lookupField rest key

/-- JavaScript property access: only objects carry properties.  A null or
primitive receiver yields no value (in the source every access is guarded
by a truthiness check on the receiver). -/
def Json.getField : Json → String → Option Json
  | .obj fields, key => Json.lookupField fields key
  | _, _ => none

/-- The test pattern of the source, "data && Array.isArray(data.key)":
returns the element list when the property exists and is an array. -/
def Json.getArray : Json → String → Option (List Json)
  | j, key =>
    match j.getField key with
    | some (.arr elems) => some elems
    | _ => none

/-- processLoadedData (src/App.tsx lines 544-561): accept a current-schema
document verbatim; wrap a legacy flat entry list into one synthetic
"General" topic whose id is "topic-" followed by Date.now() and whose
createdAt is the current ISO timestamp; reject anything else (the source
logs to the console and returns without touching state, modelled as
none). -/
def processLoadedData (nowMs : Nat) (nowIso : String) (data : Json) : Option Json :=
  match data.getArray "topics" with
  | some _ => some data
  | none =>
    match data.getArray "entries" with
    | some legacyEntries =>
        some (.obj [("topics", .arr [.obj [
          ("id", .str ("topic-" ++ toString nowMs)),
          ("name", .str "General"),
          ("createdAt", .str nowIso),
          ("entries", .arr legacyEntries)]])])
    | none => none

/-- A concrete legacy-shaped entry used in counterexamples and witnesses. -/
def sampleEntryJson : Json :=
  .obj [("id", .str "e1"), ("title", .str "Hello"),
        ("content", .str ""), ("createdAt", .str "2024-01-01T00:00:00Z")]

/-- A JSON value whose entries field is an array but whose topics field is
also an array. -/
def bothShapesDoc : Json :=
  .obj [("topics", .arr []), ("entries", .arr [sampleEntryJson])]

/-- The result of migrating the sample legacy document at time 7. -/
def sampleTopicJson : Json :=
  .obj [("id", .str "topic-7"), ("name", .str "General"),
        ("createdAt", .str "2024-02-02T00:00:00Z"),
        ("entries", .arr [sampleEntryJson])]

/-- A current-schema document holding the sample topic. -/
def migratedSampleDoc : Json := .obj [("topics", .arr [sampleTopicJson])]

/-- src/types.ts: a single writable document. -/
structure PortfolioEntry where
  id : String
  title : String
  content : String
  createdAt : String
deriving Repr, DecidableEq

/-- src/types.ts: a named group of entries. -/
structure Topic where
  id : String
  name : String
  createdAt : String
  entries : List PortfolioEntry
deriving Repr, DecidableEq

/-- src/types.ts: the persisted root. -/
structure PortfolioData where
  topics : List Topic
deriving Repr, DecidableEq

/-- The app-level state the CRUD handlers read and write: the in-memory
document plus the active-entry selection. -/
structure AppState where
  portfolioData : PortfolioData
  activeEntryId : Option String
deriving Repr, DecidableEq

/-- JavaScript "expr || null" applied to an id string: the empty string is
falsy and collapses to null. -/
def orNull : Option String → Option String
  | some s => if s = "" then none else some s
  | none => none

/-- topics[0]?.entries[0]?.id || null — the load-time fallback. -/
def headEntryId (topics : List Topic) : Option String :=
  orNull ((topics.head?.bind (fun t => t.entries.head?)).map (fun e => e.id))

/-- topics.find(t => t.entries.length > 0)?.entries[0]?.id || null — the
fallback used when the deleted entry's own topic ran empty. -/
def firstNonemptyEntryId (topics : List Topic) : Option String :=
  orNull (((topics.find? (fun t => !t.entries.isEmpty)).bind
    (fun t => t.entries.head?)).map (fun e => e.id))

/-- Every entry id of the document, in document order (the set built at
src/App.tsx line 567). -/
def PortfolioData.allEntryIds (d : PortfolioData) : List String :=
  d.topics.flatMap (fun t => t.entries.map (fun e => e.id))

/-- Active-id resolution on load (src/App.tsx lines 565-573): keep the
stored id when it is truthy and present in the loaded document, otherwise
fall back to the first entry of the first topic, or null. -/
def resolveActive (lastActiveId : Option String) (doc : PortfolioData) : Option String :=
  match lastActiveId with
  | some a => if a ≠ "" ∧ a ∈ doc.allEntryIds then some a else headEntryId doc.topics
  | none => headEntryId doc.topics

/-- Installing a loaded current-schema document: setPortfolioData followed
by the active-id resolution above. -/
def loadDocument (lastActiveId : Option String) (doc : PortfolioData) : AppState :=
  { portfolioData := doc, activeEntryId := resolveActive lastActiveId doc }

/-- handleAddNewTopic (src/App.tsx lines 268-281): append a topic with no
entries; the name is the trimmed prompt answer.  Selection untouched. -/
def handleAddNewTopic (topicId topicName createdAt : String) (s : AppState) : AppState :=
  { s with portfolioData := { topics := s.portfolioData.topics ++
      [{ id := topicId, name := topicName, createdAt := createdAt, entries := [] }] } }

/-- handleAddNewEntry (src/App.tsx lines 304-320): append the new entry to
the topic with the given id, and unconditionally make the new entry
active — also when no topic matched and the entry was added nowhere. -/
def handleAddNewEntry (topicId : String) (newEntry : PortfolioEntry) (s : AppState) : AppState :=
  { portfolioData := { topics := s.portfolioData.topics.map (fun t =>
      if t.id == topicId then { t with entries := t.entries ++ [newEntry] } else t) },
    activeEntryId := some newEntry.id }

/-- Partial<PortfolioEntry> as produced by the editor: optional new title
and content. -/
structure EntryUpdates where
  title : Option String
  content : Option String
deriving Repr, DecidableEq

/-- Object spread { ...entry, ...updates }. -/
def applyUpdates (e : PortfolioEntry) (u : EntryUpdates) : PortfolioEntry :=
  { e with title := u.title.getD e.title, content := u.content.getD e.content }

/-- findIndex plus in-place replacement: update the first entry carrying
the id, leave the rest alone. -/
def updateFirst : List PortfolioEntry → String → EntryUpdates → List PortfolioEntry
  | [], _, _ => []
  | e :: rest, entryId, u =>
    if e.id == entryId then applyUpdates e u :: rest else e :: updateFirst rest entryId u

/-- handleUpdateEntry (src/App.tsx lines 363-378): merge the partial update
into the matching entry of each topic; unknown ids are a silent no-op. -/
def handleUpdateEntry (entryId : String) (u : EntryUpdates) (s : AppState) : AppState :=
  { s with portfolioData := { topics := s.portfolioData.topics.map (fun t =>
      { t with entries := updateFirst t.entries entryId u }) } }

/-- The for-loop of handleDeleteEntry: the id of the first topic containing
the entry, with the entry's index there. -/
def entryLoc : List Topic → String → Option (String × Nat)
  | [], _ => none
  | t :: ts, entryId =>
    match t.entries.findIdx? (fun e => e.id == entryId) with
    | some i => some (t.id, i)
    | none => entryLoc ts entryId

/-- handleDeleteEntry (src/App.tsx lines 322-361): filter the id out of
every topic; when the deleted entry was active, select the entry now at
min(oldIndex, length-1) of the same topic, else the first entry of the
first topic that still has entries, else null. -/
def handleDeleteEntry (entryId : String) (s : AppState) : AppState :=
  let loc := entryLoc s.portfolioData.topics entryId
  let newTopics := s.portfolioData.topics.map (fun t =>
    { t with entries := t.entries.filter (fun e => !(e.id == entryId)) })
  let newActive : Option String :=
    if s.activeEntryId = some entryId then
      match loc with
      | some (tid, i) =>
        match newTopics.find? (fun t => t.id == tid) with
        | some t =>
          match t.entries.get? (min i (t.entries.length - 1)) with
          | some e => some e.id
          | none => firstNonemptyEntryId newTopics
        | none => firstNonemptyEntryId newTopics
      | none => firstNonemptyEntryId newTopics
    else s.activeEntryId
  { portfolioData := { topics := newTopics }, activeEntryId := newActive }

/-- handleDeleteTopic (src/App.tsx lines 283-301): drop the topic; when the
active entry lived in it, fall back to the first entry of the first
remaining topic, or null. -/
def handleDeleteTopic (topicId : String) (s : AppState) : AppState :=
  match s.portfolioData.topics.find? (fun t => t.id == topicId) with
  | none => s
  | some topicToDelete =>
    let newTopics := s.portfolioData.topics.filter (fun t => !(t.id == topicId))
    let activeWasInDeleted := topicToDelete.entries.any (fun e => s.activeEntryId == some e.id)
    { portfolioData := { topics := newTopics },
      activeEntryId := if activeWasInDeleted then headEntryId newTopics else s.activeEntryId }

/-- The selection invariant of the spec: an active entry id, when set,
names an entry that exists somewhere in the current document. -/
def activeValid (s : AppState) : Prop :=
  ∀ a, s.activeEntryId = some a →
    ∃ t ∈ s.portfolioData.topics, ∃ e ∈ t.entries, e.id = a

/-- Topic ids are pairwise distinct (spec §3 invariant). -/
def topicIdsNodup (s : AppState) : Prop :=
  (s.portfolioData.topics.map (fun t => t.id)).Nodup

/-- The conjunction of the document invariants the handlers maintain. -/
def GoodState (s : AppState) : Prop := topicIdsNodup s ∧ activeValid s

/-- The user-level operations of the document layer. -/
inductive AppOp where
  | load (lastActiveId : Option String) (doc : PortfolioData)
  | createTopic (topicId topicName createdAt : String)
  | createEntry (topicId : String) (e : PortfolioEntry)
  | updateEntry (entryId : String) (u : EntryUpdates)
  | deleteEntry (entryId : String)
  | deleteTopic (topicId : String)

/-- Dispatch of an operation to its handler. -/
def applyOp (s : AppState) : AppOp → AppState
  | .load la doc => loadDocument la doc
  | .createTopic tid nm ts => handleAddNewTopic tid nm ts s
  | .createEntry tid e => handleAddNewEntry tid e s
  | .updateEntry eid u => handleUpdateEntry eid u s
  | .deleteEntry eid => handleDeleteEntry eid s
  | .deleteTopic tid => handleDeleteTopic tid s

/-- Side conditions under which an operation is issued in the running
application: loaded documents and freshly generated topic ids do not
duplicate topic ids, and entries are created under existing topics (the
sidebar only offers create buttons for existing topics). -/
def opOk (s : AppState) : AppOp → Prop
  | .load _ doc => (doc.topics.map (fun t => t.id)).Nodup
  | .createTopic tid _ _ => ∀ t ∈ s.portfolioData.topics, t.id ≠ tid
  | .createEntry tid _ => ∃ t ∈ s.portfolioData.topics, t.id = tid
  | .updateEntry _ _ => True
  | .deleteEntry _ => True
  | .deleteTopic _ => True

/-- A run of operations, each legitimate in the state it fires from. -/
inductive OkRun : AppState → List AppOp → AppState → Prop where
  | nil (s : AppState) : OkRun s [] s
  | cons {s s' : AppState} {op : AppOp} {ops : List AppOp} :
      opOk s op → OkRun (applyOp s op) ops s' → OkRun s (op :: ops) s'

/-- Entries used by the concrete delete-selection witness. -/
def wEntryA : PortfolioEntry :=
  { id := "a", title := "A", content := "", createdAt := "2024-01-01" }

/-- Second witness entry, initially active. -/
def wEntryB : PortfolioEntry :=
  { id := "b", title := "B", content := "", createdAt := "2024-01-02" }

/-- Third witness entry, expected to inherit the selection. -/
def wEntryC : PortfolioEntry :=
  { id := "c", title := "C", content := "", createdAt := "2024-01-03" }

/-- Witness topic holding the three entries in order. -/
def wTopic : Topic :=
  { id := "t1", name := "T", createdAt := "2024-01-01",
    entries := [wEntryA, wEntryB, wEntryC] }

/-- The witness topic after entry b is removed. -/
def wTopicAfter : Topic :=
  { id := "t1", name := "T", createdAt := "2024-01-01",
    entries := [wEntryA, wEntryC] }

/-- Witness state: entry b of [a, b, c] is active. -/
def wState : AppState :=
  { portfolioData := { topics := [wTopic] }, activeEntryId := some "b" }

/-- Entry of the concrete one-topic document. -/
def cexEntry1 : PortfolioEntry :=
  { id := "e1", title := "Hello", content := "", createdAt := "2024-01-01" }

/-- The single topic of the concrete document. -/
def cexTopic1 : Topic :=
  { id := "t1", name := "Stories", createdAt := "2024-01-01", entries := [cexEntry1] }

/-- A concrete valid current-schema document. -/
def cexDoc1 : PortfolioData := { topics := [cexTopic1] }

/-- An entry whose creation is attempted under a nonexistent topic id. -/
def cexEntry2 : PortfolioEntry :=
  { id := "e2", title := "New Entry", content := "", createdAt := "2024-01-02" }

/-- A concrete app state holding cexDoc1 with e1 active. -/
def cexState1 : AppState :=
  { portfolioData := cexDoc1, activeEntryId := some "e1" }

/-- The fixed key under which the whole document is stored in the portfolio
object store (src/services/storageService.ts DATA_KEY). -/
def DATA_KEY : String := "main"

/-- The embedded key-value store backing the IndexedDB adapter: the
contents of the single portfolio object store. -/
structure IDBStore where
  table : List (String × PortfolioData)
deriving Repr, DecidableEq

/-- IDBObjectStore.put semantics: upsert by key. -/
def idbPut (s : IDBStore) (key : String) (v : PortfolioData) : IDBStore :=
  if s.table.any (fun p => p.1 == key) then
    { table := s.table.map (fun p => if p.1 == key then (key, v) else p) }
  else
    { table := s.table ++ [(key, v)] }

/-- IDBObjectStore.get semantics; a missing key resolves to null via the
adapter's "request.result || null". -/
def idbGet (s : IDBStore) (key : String) : Option PortfolioData :=
  (s.table.find? (fun p => p.1 == key)).map (fun p => p.2)

/-- savePortfolioData (src/services/storageService.ts lines 37-58): put the
document under the fixed key. -/
def savePortfolioData (s : IDBStore) (data : PortfolioData) : IDBStore :=
  idbPut s DATA_KEY data

/-- loadPortfolioData (src/services/storageService.ts lines 60-81): get the
fixed key, null when absent. -/
def loadPortfolioData (s : IDBStore) : Option PortfolioData :=
  idbGet s DATA_KEY

/-- The fixed cloud file name (src/services/googleDriveService.ts
FILE_NAME). -/
def FILE_NAME : String := "portfolio-data.json"

/-- A file in the provider's application-private folder. -/
structure DriveFile where
  id : String
  name : String
  content : PortfolioData
deriving Repr, DecidableEq

/-- The application-private folder plus the id the server would assign to
the next created file. -/
structure DriveState where
  files : List DriveFile
  nextId : String
deriving Repr, DecidableEq

/-- findPortfolioFileId (src/services/googleDriveService.ts lines 418-432):
name lookup in the app folder; the first hit's id, null when absent. -/
def findPortfolioFileId (d : DriveState) : Option String :=
  (d.files.find? (fun f => f.name == FILE_NAME)).map (fun f => f.id)

/-- savePortfolioToDrive (src/services/googleDriveService.ts lines
435-462): find-by-name, then PATCH the found file's content by id, or POST
a new file named FILE_NAME into the app folder. -/
def savePortfolioToDrive (d : DriveState) (data : PortfolioData) : DriveState :=
  match findPortfolioFileId d with
  | some fileId =>
      { d with files := d.files.map (fun f =>
          if f.id == fileId then { f with content := data } else f) }
  | none =>
      { d with files := d.files ++ [{ id := d.nextId, name := FILE_NAME, content := data }] }

/-- loadPortfolioFromDrive (src/services/googleDriveService.ts lines
465-479): find-by-name, then download the content by id; null when no file
carries the fixed name. -/
def loadPortfolioFromDrive (d : DriveState) : Option PortfolioData :=
  match findPortfolioFileId d with
  | none => none
  | some fileId => (d.files.find? (fun f => f.id == fileId)).map (fun f => f.content)

/-- The fields the editor sends in one update (title and content captured
from the contentEditable surface). -/
structure EditorUpdates where
  title : String
  content : String
deriving Repr, DecidableEq

/-- The autosave settings the Editor component receives as props. -/
structure EditorCfg where
  autoSaveEnabled : Bool
  autoSaveInterval : Nat
deriving Repr, DecidableEq

/-- The mutable pieces of the Editor component relevant to saving: the
pending debounce timer (deadline and the updates its callback captured),
the hasPendingChanges flag, and the onUpdate invocations performed so far,
oldest first (each such invocation hands the latest edit to the App and
thereby to the persistence layer). -/
structure EditorState where
  pendingTimeout : Option (Nat × EditorUpdates)
  hasPendingChanges : Bool
  savedCalls : List EditorUpdates
deriving Repr, DecidableEq

/-- The editor before any edit: no timer, no pending changes, no calls. -/
def editorStart : EditorState :=
  { pendingTimeout := none, hasPendingChanges := false, savedCalls := [] }

/-- triggerUpdate (src/unnamed/part_000 lines 314-326): with autosave on,
clear any pending timer and schedule the captured updates at
now + autoSaveInterval; with autosave off, only raise hasPendingChanges. -/
def triggerUpdate (cfg : EditorCfg) (now : Nat) (u : EditorUpdates)
    (s : EditorState) : EditorState :=
  if cfg.autoSaveEnabled then
    { s with pendingTimeout := some (now + cfg.autoSaveInterval, u) }
  else
    { s with hasPendingChanges := true }

/-- The runtime invoking a due timeout callback at time now: nothing
happens without a pending timer or before its deadline; at or after the
deadline the callback runs onUpdate with the captured updates and clears
hasPendingChanges.  A timer replaced by a later triggerUpdate was
clearTimeout-ed and can never reach this point. -/
def timerFire (now : Nat) (s : EditorState) : EditorState :=
  match s.pendingTimeout with
  | some (deadline, u) =>
      if deadline ≤ now then
        { pendingTimeout := none, hasPendingChanges := false,
          savedCalls := s.savedCalls ++ [u] }
      else s
  | none => s

/-- handleManualSave (src/unnamed/part_000 lines 328-334): read the current
editor surface and call onUpdate with it immediately, clearing
hasPendingChanges. -/
def handleManualSave (current : EditorUpdates) (s : EditorState) : EditorState :=
  { s with hasPendingChanges := false, savedCalls := s.savedCalls ++ [current] }

/-- The alert text of handleFileSelected's catch branch (src/App.tsx line
674). -/
def importFailAlert : String :=
  "Failed to import file. Please ensure it is a valid portfolio JSON file."

/-- The app state the import flow touches: the installed document, the
selection, and the user-visible alerts raised so far. -/
structure ImportState where
  portfolioData : Option Json
  activeEntryId : Option String
  alerts : List String

/-- The string-valued entry ids of a raw current-schema document, used for
the membership test of the load-time active-id validation.  Ids of other
shapes never compare equal to the stored string id and are dropped. -/
def Json.entryIds (doc : Json) : List String :=
  match doc.getArray "topics" with
  | none => []
  | some ts => ts.flatMap (fun t =>
      match t.getArray "entries" with
      | none => []
      | some es => es.filterMap (fun e =>
          match e.getField "id" with
          | some (.str s) => some s
          | _ => none))

/-- topics[0]?.entries[0]?.id || null on a raw document; a first id that is
not a string is modelled as null (no such document arises below). -/
def jsonHeadEntryId (doc : Json) : Option String :=
  match doc.getArray "topics" with
  | some (t :: _) =>
      match t.getArray "entries" with
      | some (e :: _) =>
          match e.getField "id" with
          | some (.str s) => orNull (some s)
          | _ => none
      | _ => none
  | _ => none

/-- The active-id resolution steps of processLoadedData, on the raw
document. -/
def resolveActiveJson (lastActiveId : Option String) (doc : Json) : Option String :=
  match lastActiveId with
  | some a => if a ≠ "" ∧ a ∈ doc.entryIds then some a else jsonHeadEntryId doc
  | none => jsonHeadEntryId doc

/-- handleFileSelected (src/App.tsx lines 659-687) after the file text is
read: parse failure (parsed = none) raises the invalid-file alert inside
the catch; a parsed value is handed to processLoadedData, which installs
the document and resolves the selection on success and returns without
doing anything on a schema mismatch — the catch is not reached, so no
alert is raised for that case. -/
def handleFileSelected (nowMs : Nat) (nowIso : String) (lastActiveId : Option String)
    (parsed : Option Json) (s : ImportState) : ImportState :=
  match parsed with
  | none => { s with alerts := s.alerts ++ [importFailAlert] }
  | some data =>
    match processLoadedData nowMs nowIso data with
    | none => s
    | some doc =>
        { portfolioData := some doc,
          activeEntryId := resolveActiveJson lastActiveId doc,
          alerts := s.alerts }

/-- A concrete import state holding the migrated sample document. -/
def importState0 : ImportState :=
  { portfolioData := some migratedSampleDoc, activeEntryId := some "e1", alerts := [] }

/-- What the focus handler does: either nothing, or it puts the
reload-or-overwrite decision to the user. -/
inductive ExternalCheckResult where
  | noPrompt : ExternalCheckResult
  | promptReloadOrOverwrite : ExternalCheckResult
deriving Repr, DecidableEq

/-- checkForExternalChanges (src/App.tsx lines 1085-1130): bail out without
a file handle or without a recorded timestamp (lastModified null — or 0,
which is falsy); otherwise prompt the user exactly when the on-disk
timestamp exceeds the recorded one by more than the 2 ms tolerance. -/
def checkForExternalChanges (hasHandle : Bool) (lastModified : Option Nat)
    (fileLastModified : Nat) : ExternalCheckResult :=
  if !hasHandle then .noPrompt
  else
    match lastModified with
    | none => .noPrompt
    | some lm =>
        if lm = 0 then .noPrompt
        else if lm + 2 < fileLastModified then .promptReloadOrOverwrite
        else .noPrompt

/-- C1 counterexample: bothShapesDoc has an array entries field, so it is a
legacy-schema input in the claim's sense, yet processLoadedData returns it
verbatim through the current-schema branch: the result has an empty topics
array, not exactly one synthetic "General" topic holding the legacy
entry. -/
theorem processLoadedData_both_shapes_not_migrated :
    bothShapesDoc.getArray "entries" = some [sampleEntryJson] ∧
    processLoadedData 7 "2024-02-02T00:00:00Z" bothShapesDoc = some bothShapesDoc ∧
    bothShapesDoc.getArray "topics" = some [] := by
  refine ⟨?_, ?_, ?_⟩ <;>
    simp [processLoadedData, bothShapesDoc, Json.getArray, Json.getField, Json.lookupField]

/-- C1 (amended): for every input whose entries field is an array and whose
topics field is not an array, processLoadedData produces a document with
exactly one topic, named "General", with the freshly generated id
"topic-" ++ Date.now() and createdAt equal to now, whose entries field is
exactly the legacy entry list, order and fields untouched. -/
theorem processLoadedData_migrates_legacy (nowMs : Nat) (nowIso : String)
    (data : Json) (es : List Json)
    (hcur : data.getArray "topics" = none)
    (hleg : data.getArray "entries" = some es) :
    ∃ topicJson,
      processLoadedData nowMs nowIso data = some (.obj [("topics", .arr [topicJson])]) ∧
      topicJson.getField "id" = some (.str ("topic-" ++ toString nowMs)) ∧
      topicJson.getField "name" = some (.str "General") ∧
      topicJson.getField "createdAt" = some (.str nowIso) ∧
      topicJson.getField "entries" = some (.arr es) := by
  refine ⟨.obj [("id", .str ("topic-" ++ toString nowMs)), ("name", .str "General"),
    ("createdAt", .str nowIso), ("entries", .arr es)], ?_, ?_, ?_, ?_, ?_⟩
  · unfold processLoadedData
    rw [hcur, hleg]
  all_goals simp [Json.getField, Json.lookupField]

/-- Witness for the amended C1 at a concrete legacy document. -/
theorem processLoadedData_migrates_legacy_witness :
    ∃ topicJson,
      processLoadedData 7 "2024-02-02T00:00:00Z"
          (.obj [("entries", .arr [sampleEntryJson])]) =
        some (.obj [("topics", .arr [topicJson])]) ∧
      topicJson.getField "id" = some (.str ("topic-" ++ toString 7)) ∧
      topicJson.getField "name" = some (.str "General") ∧
      topicJson.getField "createdAt" = some (.str "2024-02-02T00:00:00Z") ∧
      topicJson.getField "entries" = some (.arr [sampleEntryJson]) :=
  processLoadedData_migrates_legacy 7 "2024-02-02T00:00:00Z" _ _
    (by simp [Json.getArray, Json.getField, Json.lookupField])
    (by simp [Json.getArray, Json.getField, Json.lookupField])

/-- C2: a current-schema input (topics field an array) is returned
unchanged, and consequently every successful normalization result is a
fixed point of processLoadedData, whatever clock values the two
applications see. -/
theorem processLoadedData_idempotent (t1 t2 : Nat) (i1 i2 : String) (d : Json) :
    (∀ ts, d.getArray "topics" = some ts → processLoadedData t1 i1 d = some d) ∧
    (∀ r, processLoadedData t1 i1 d = some r → processLoadedData t2 i2 r = some r) := by
  constructor
  · intro ts hts
    unfold processLoadedData
    rw [hts]
  · intro r hr
    unfold processLoadedData at hr ⊢
    cases htop : d.getArray "topics" with
    | some ts =>
        rw [htop] at hr
        cases hr
        rw [htop]
    | none =>
        rw [htop] at hr
        cases hent : d.getArray "entries" with
        | some es =>
            rw [hent] at hr
            cases hr
            simp [Json.getArray, Json.getField, Json.lookupField]
        | none => rw [hent] at hr; cases hr

/-- Witness for C2: normalizing an already migrated legacy document a
second time, with a different clock, changes nothing. -/
theorem processLoadedData_idempotent_witness :
    processLoadedData 99 "2025-01-01T00:00:00Z" migratedSampleDoc = some migratedSampleDoc :=
  (processLoadedData_idempotent 99 99 "2025-01-01T00:00:00Z" "2025-01-01T00:00:00Z" _).1
    [sampleTopicJson]
    (by simp [migratedSampleDoc, Json.getArray, Json.getField, Json.lookupField])

/-- C10: acceptance is a shallow shape test.  processLoadedData succeeds
exactly when the topics property is an array or the entries property is an
array, and a value passing the topics test is installed verbatim: its
elements are never inspected, so topics of arbitrary shape flow into the
document unchanged. -/
theorem processLoadedData_shallow_acceptance (t : Nat) (i : String) (d : Json) :
    ((processLoadedData t i d).isSome ↔
      (d.getArray "topics").isSome ∨ (d.getArray "entries").isSome) ∧
    (∀ ts, d.getArray "topics" = some ts → processLoadedData t i d = some d) := by
  constructor
  · unfold processLoadedData
    cases htop : d.getArray "topics" with
    | some ts => simp
    | none =>
        cases hent : d.getArray "entries" with
        | some es => simp
        | none => simp
  · intro ts hts
    unfold processLoadedData
    rw [hts]

/-- Witness for C10: a document whose single topic is the bare number 5 —
no id, no name, no entries field — is accepted verbatim. -/
theorem processLoadedData_shallow_acceptance_witness :
    processLoadedData 0 "x" (.obj [("topics", .arr [.num 5])]) =
      some (.obj [("topics", .arr [.num 5])]) :=
  (processLoadedData_shallow_acceptance 0 "x" _).2 [.num 5]
    (by simp [Json.getArray, Json.getField, Json.lookupField])

/-- orNull only ever forwards the value it was given. -/
theorem orNull_eq_some {o : Option String} {a : String} :
    orNull o = some a → o = some a := by
  cases o with
  | none => intro h; simp [orNull] at h
  | some s =>
      intro h
      simp only [orNull] at h
      split at h
      · cases h
      · exact h

/-- A selection produced by headEntryId names an entry of the list. -/
theorem headEntryId_valid {topics : List Topic} {a : String}
    (h : headEntryId topics = some a) :
    ∃ t ∈ topics, ∃ e ∈ t.entries, e.id = a := by
  cases topics with
  | nil => simp [headEntryId, orNull] at h
  | cons t ts =>
      cases hE : t.entries with
      | nil => simp [headEntryId, hE, orNull] at h
      | cons e es =>
          have h2 := orNull_eq_some (by
            simpa [headEntryId, hE] using h)
          exact ⟨t, by simp, e, by simp [hE], by simpa using h2⟩

/-- A selection produced by firstNonemptyEntryId names an entry of the
list. -/
theorem firstNonemptyEntryId_valid {topics : List Topic} {a : String}
    (h : firstNonemptyEntryId topics = some a) :
    ∃ t ∈ topics, ∃ e ∈ t.entries, e.id = a := by
  cases hf : topics.find? (fun t => !t.entries.isEmpty) with
  | none => simp [firstNonemptyEntryId, hf, orNull] at h
  | some t =>
      have ht : t ∈ topics := List.mem_of_find?_eq_some hf
      cases hE : t.entries with
      | nil => simp [firstNonemptyEntryId, hf, hE, orNull] at h
      | cons e es =>
          have h2 := orNull_eq_some (by
            simpa [firstNonemptyEntryId, hf, hE] using h)
          exact ⟨t, ht, e, by simp [hE], by simpa using h2⟩

/-- Membership in the flattened id list is existence of the entry. -/
theorem mem_allEntryIds {d : PortfolioData} {a : String} :
    a ∈ d.allEntryIds ↔ ∃ t ∈ d.topics, ∃ e ∈ t.entries, e.id = a := by
  simp [PortfolioData.allEntryIds]

/-- The id resolved on load names an entry of the loaded document (or is
null). -/
theorem resolveActive_valid {la : Option String} {doc : PortfolioData} {a : String}
    (h : resolveActive la doc = some a) :
    ∃ t ∈ doc.topics, ∃ e ∈ t.entries, e.id = a := by
  cases la with
  | none => exact headEntryId_valid h
  | some s =>
      simp only [resolveActive] at h
      split at h
      · cases h
        rename_i hcond
        exact mem_allEntryIds.mp hcond.2
      · exact headEntryId_valid h

/-- Entries surviving the per-topic filter of handleDeleteEntry never carry
the deleted id, and come from the original document. -/
theorem mem_deleted_topics {topics : List Topic} {entryId : String} {t : Topic}
    (ht : t ∈ topics.map (fun t =>
      { t with entries := t.entries.filter (fun e => !(e.id == entryId)) }))
    {e : PortfolioEntry} (he : e ∈ t.entries) :
    e.id ≠ entryId ∧ ∃ t0 ∈ topics, e ∈ t0.entries := by
  obtain ⟨t0, ht0, rfl⟩ := List.mem_map.mp ht
  have hm := List.mem_filter.mp he
  refine ⟨?_, t0, ht0, hm.1⟩
  simpa using hm.2

/-- After handleDeleteEntry the selection never names the deleted id. -/
theorem handleDeleteEntry_active_ne (entryId : String) (s : AppState) :
    (handleDeleteEntry entryId s).activeEntryId ≠ some entryId := by
  by_cases hact : s.activeEntryId = some entryId
  · simp only [handleDeleteEntry, hact, if_pos]
    cases hloc : entryLoc s.portfolioData.topics entryId with
    | none =>
        intro hcon
        obtain ⟨t, ht, e, he, hid⟩ := firstNonemptyEntryId_valid hcon
        exact ((mem_deleted_topics ht he).1) hid
    | some p =>
        obtain ⟨tid, i⟩ := p
        cases hfind : (s.portfolioData.topics.map (fun t =>
            { t with entries := t.entries.filter (fun e => !(e.id == entryId)) })).find?
              (fun t => t.id == tid) with
        | none =>
            simp only [hfind]
            intro hcon
            obtain ⟨t, ht, e, he, hid⟩ := firstNonemptyEntryId_valid hcon
            exact ((mem_deleted_topics ht he).1) hid
        | some t =>
            simp only [hfind]
            have htmem := List.mem_of_find?_eq_some hfind
            cases hget : t.entries.get? (min i (t.entries.length - 1)) with
            | none =>
                simp only [hget]
                intro hcon
                obtain ⟨t', ht', e, he, hid⟩ := firstNonemptyEntryId_valid hcon
                exact ((mem_deleted_topics ht' he).1) hid
            | some e =>
                simp only [hget]
                intro hcon
                have he : e ∈ t.entries := List.get?_mem hget
                have := (mem_deleted_topics htmem he).1
                exact this (by simpa using hcon)
  · simp only [handleDeleteEntry, if_neg hact]
    exact hact

/-- After handleDeleteEntry the selection names an entry of the resulting
document, or is null. -/
theorem handleDeleteEntry_activeValid (entryId : String) (s : AppState)
    (hs : ∀ a, s.activeEntryId = some a →
      ∃ t ∈ s.portfolioData.topics, ∃ e ∈ t.entries, e.id = a) :
    ∀ a, (handleDeleteEntry entryId s).activeEntryId = some a →
      ∃ t ∈ (handleDeleteEntry entryId s).portfolioData.topics,
        ∃ e ∈ t.entries, e.id = a := by
  intro a ha
  by_cases hact : s.activeEntryId = some entryId
  · simp only [handleDeleteEntry, hact, if_pos] at ha ⊢
    cases hloc : entryLoc s.portfolioData.topics entryId with
    | none =>
        rw [hloc] at ha
        exact firstNonemptyEntryId_valid ha
    | some p =>
        obtain ⟨tid, i⟩ := p
        rw [hloc] at ha
        dsimp only at ha
        cases hfind : (s.portfolioData.topics.map (fun t =>
            { t with entries := t.entries.filter (fun e => !(e.id == entryId)) })).find?
              (fun t => t.id == tid) with
        | none =>
            rw [hfind] at ha
            exact firstNonemptyEntryId_valid ha
        | some t =>
            rw [hfind] at ha
            dsimp only at ha
            have htmem := List.mem_of_find?_eq_some hfind
            cases hget : t.entries.get? (min i (t.entries.length - 1)) with
            | none =>
                rw [hget] at ha
                exact firstNonemptyEntryId_valid ha
            | some e =>
                rw [hget] at ha
                cases ha
                exact ⟨t, htmem, e, List.get?_mem hget, rfl⟩
  · simp only [handleDeleteEntry, if_neg hact] at ha ⊢
    obtain ⟨t, ht, e, he, hid⟩ := hs a ha
    have hne : e.id ≠ entryId := by
      intro hcon
      exact hact (by rw [ha, ← hid, hcon])
    refine ⟨{ t with entries := t.entries.filter (fun e => !(e.id == entryId)) },
      List.mem_map_of_mem _ ht, e, ?_, hid⟩
    exact List.mem_filter.mpr ⟨he, by simpa using hne⟩

/-- updateFirst never changes the id sequence of an entry list. -/
theorem updateFirst_map_id (entries : List PortfolioEntry) (entryId : String)
    (u : EntryUpdates) :
    (updateFirst entries entryId u).map (fun e => e.id) =
      entries.map (fun e => e.id) := by
  induction entries with
  | nil => rfl
  | cons e rest ih =>
      by_cases h : e.id == entryId
      · simp [updateFirst, h, applyUpdates]
      · simp [updateFirst, h, ih]

/-- Mapping a topic transformer that keeps ids keeps the document's id
sequence. -/
theorem map_topics_map_id (topics : List Topic) (f : Topic → Topic)
    (hf : ∀ t, (f t).id = t.id) :
    (topics.map f).map (fun t => t.id) = topics.map (fun t => t.id) := by
  induction topics with
  | nil => rfl
  | cons t ts ih => simp [hf, ih]

/-- A map whose function fixes every member is the identity. -/
theorem map_eq_self_of_fix {α : Type} {l : List α} {f : α → α}
    (h : ∀ x ∈ l, f x = x) : l.map f = l := by
  induction l with
  | nil => rfl
  | cons x xs ih =>
      simp only [List.map_cons]
      rw [h x (by simp), ih (fun y hy => h y (by simp [hy]))]

/-- Every handler, fired under its side condition, preserves both document
invariants. -/
theorem goodState_applyOp {s : AppState} {op : AppOp}
    (hg : GoodState s) (hok : opOk s op) : GoodState (applyOp s op) := by
  obtain ⟨hnd, hav⟩ := hg
  cases op with
  | load la doc =>
      exact ⟨hok, fun a ha => resolveActive_valid ha⟩
  | createTopic tid nm ts =>
      constructor
      · simp only [applyOp, handleAddNewTopic, topicIdsNodup]
        rw [List.map_append, List.nodup_append]
        refine ⟨hnd, List.nodup_singleton _, ?_⟩
        intro x hx hx2
        simp only [List.map_cons, List.map_nil, List.mem_singleton] at hx2
        obtain ⟨t, ht, hid⟩ := List.mem_map.mp hx
        exact hok t ht (by rw [hid, hx2])
      · intro a ha
        obtain ⟨t, ht, e, he, hid⟩ := hav a ha
        exact ⟨t, List.mem_append_left _ ht, e, he, hid⟩
  | createEntry tid e =>
      constructor
      · simp only [applyOp, handleAddNewEntry, topicIdsNodup]
        rw [map_topics_map_id s.portfolioData.topics
          (fun (t : Topic) => if t.id == tid then { t with entries := t.entries ++ [e] } else t)
          (fun t => by by_cases h : t.id == tid <;> simp [h])]
        exact hnd
      · intro a ha
        obtain ⟨t, ht, hid⟩ := hok
        have haeq : some e.id = some a := ha
        have ha' : a = e.id := (Option.some.inj haeq).symm
        refine ⟨{ t with entries := t.entries ++ [e] }, ?_, e, by simp, ha'.symm⟩
        have : (fun u => if u.id == tid then { u with entries := u.entries ++ [e] } else u) t
            = { t with entries := t.entries ++ [e] } := by
          simp [hid]
        exact this ▸ List.mem_map_of_mem _ ht
  | updateEntry eid u =>
      constructor
      · simp only [applyOp, handleUpdateEntry, topicIdsNodup]
        rw [map_topics_map_id s.portfolioData.topics
          (fun (t : Topic) => { t with entries := updateFirst t.entries eid u })
          (fun t => rfl)]
        exact hnd
      · intro a ha
        obtain ⟨t, ht, e, he, hid⟩ := hav a ha
        have hida : a ∈ (updateFirst t.entries eid u).map (fun e => e.id) := by
          rw [updateFirst_map_id]
          exact List.mem_map.mpr ⟨e, he, hid⟩
        obtain ⟨e', he', hid'⟩ := List.mem_map.mp hida
        exact ⟨{ t with entries := updateFirst t.entries eid u },
          List.mem_map_of_mem _ ht, e', he', hid'⟩
  | deleteEntry eid =>
      constructor
      · simp only [applyOp, handleDeleteEntry, topicIdsNodup]
        rw [map_topics_map_id s.portfolioData.topics
          (fun (t : Topic) => { t with entries := t.entries.filter (fun e => !(e.id == eid)) })
          (fun t => rfl)]
        exact hnd
      · exact handleDeleteEntry_activeValid eid s hav
  | deleteTopic tid =>
      cases hfind : s.portfolioData.topics.find? (fun t => t.id == tid) with
      | none =>
          simp only [applyOp, handleDeleteTopic, hfind]
          exact ⟨hnd, hav⟩
      | some td =>
          have htd : td ∈ s.portfolioData.topics := List.mem_of_find?_eq_some hfind
          have htdid : td.id = tid := by simpa using List.find?_some hfind
          simp only [applyOp, handleDeleteTopic, hfind]
          constructor
          · show (((s.portfolioData.topics.filter _).map (fun t => t.id))).Nodup
            exact List.Nodup.sublist
              (List.Sublist.map _ (List.filter_sublist _)) hnd
          · by_cases hin : td.entries.any (fun e => s.activeEntryId == some e.id) = true
            · rw [if_pos hin]
              intro a ha
              exact headEntryId_valid ha
            · rw [if_neg hin]
              intro a ha
              obtain ⟨t, ht, e, he, hid⟩ := hav a ha
              have hne : t.id ≠ tid := by
                intro hcon
                have : t = td :=
                  List.inj_on_of_nodup_map hnd ht htd (by rw [hcon, htdid])
                subst this
                exact hin (List.any_eq_true.mpr ⟨e, he, by rw [ha, hid]; simp⟩)
              exact ⟨t, List.mem_filter.mpr ⟨ht, by simpa using hne⟩, e, he, hid⟩

/-- Along a run of legitimate operations the invariants persist. -/
theorem goodState_okRun {s s' : AppState} {ops : List AppOp}
    (hg : GoodState s) (hr : OkRun s ops s') : GoodState s' := by
  induction hr with
  | nil => exact hg
  | cons hok _ ih => exact ih (goodState_applyOp hg hok)

/-- C6: deleting the currently active entry selects the entry now at
position min(oldIndex, newLength-1) of the deleted entry's topic when that
topic still has entries, otherwise the first entry of the first topic that
has any entries (null when none has); the selection never stays on the
deleted id. -/
theorem handleDeleteEntry_selection (s : AppState) (eid tid : String) (i : Nat)
    (hact : s.activeEntryId = some eid)
    (hloc : entryLoc s.portfolioData.topics eid = some (tid, i)) :
    ((handleDeleteEntry eid s).activeEntryId ≠ some eid) ∧
    (∀ t, (handleDeleteEntry eid s).portfolioData.topics.find?
        (fun u => u.id == tid) = some t →
      (∀ e, t.entries.get? (min i (t.entries.length - 1)) = some e →
        (handleDeleteEntry eid s).activeEntryId = some e.id) ∧
      (t.entries = [] →
        (handleDeleteEntry eid s).activeEntryId =
          firstNonemptyEntryId (handleDeleteEntry eid s).portfolioData.topics)) := by
  refine ⟨handleDeleteEntry_active_ne eid s, ?_⟩
  intro t hfind
  have hfind' : (s.portfolioData.topics.map (fun t =>
      { t with entries := t.entries.filter (fun e => !(e.id == eid)) })).find?
        (fun u => u.id == tid) = some t := hfind
  constructor
  · intro e hget
    simp only [handleDeleteEntry, hact, if_pos, hloc, hfind', hget]
  · intro hnil
    simp only [handleDeleteEntry, hact, if_pos, hloc, hfind', hnil, List.get?_nil]

/-- Witness for C6: deleting active entry b of [a, b, c] moves the
selection to c, the entry now occupying index 1, and off the deleted id. -/
theorem handleDeleteEntry_selection_witness :
    (handleDeleteEntry "b" wState).activeEntryId ≠ some "b" ∧
    (handleDeleteEntry "b" wState).activeEntryId = some "c" := by
  have h := handleDeleteEntry_selection wState "b" "t1" 1 (by decide) (by decide)
  refine ⟨h.1, ?_⟩
  have h2 := (h.2 wTopicAfter (by decide)).1 wEntryC (by decide)
  simpa [wEntryC] using h2

/-- C7 counterexample: from the state reached by loading cexDoc1 (where the
selection invariant holds), create-entry-in-topic with the absent topic id
"missing" leaves activeEntryId pointing at "e2", an entry existing nowhere
in the document. -/
theorem dangling_active_after_missing_topic_create :
    (loadDocument none cexDoc1).activeEntryId = some "e1" ∧
    (handleAddNewEntry "missing" cexEntry2 (loadDocument none cexDoc1)).activeEntryId
      = some "e2" ∧
    ¬ activeValid (handleAddNewEntry "missing" cexEntry2 (loadDocument none cexDoc1)) := by
  refine ⟨by decide, by decide, ?_⟩
  intro h
  obtain ⟨t, ht, e, he, hid⟩ := h "e2" (by decide)
  have hdoc : (handleAddNewEntry "missing" cexEntry2
      (loadDocument none cexDoc1)).portfolioData = cexDoc1 := by decide
  rw [hdoc] at ht
  have ht' : t = cexTopic1 := by simpa [cexDoc1] using ht
  subst ht'
  have he' : e = cexEntry1 := by simpa [cexTopic1] using he
  subst he'
  exact absurd hid (by decide)

/-- C7 (amended): on load the stored active id is resolved against the
loaded document (kept only when it names an existing entry, else first
entry of the first topic, else null); and along every run of operations in
which loaded documents and fresh topic ids keep topic ids distinct and
entries are only created under existing topics, the active entry id always
names an existing entry when set. -/
theorem activeEntryId_never_dangling :
    (∀ la doc a, (loadDocument la doc).activeEntryId = some a →
       ∃ t ∈ doc.topics, ∃ e ∈ t.entries, e.id = a) ∧
    (∀ s ops s2, GoodState s → OkRun s ops s2 → activeValid s2) :=
  ⟨fun _ _ _ ha => resolveActive_valid ha,
   fun _ _ _ hg hr => (goodState_okRun hg hr).2⟩

/-- Witness for C7: the load component at cexDoc1, and a one-step run
deleting the active entry from cexState1. -/
theorem activeEntryId_never_dangling_witness :
    (∃ t ∈ cexDoc1.topics, ∃ e ∈ t.entries, e.id = "e1") ∧
    activeValid (applyOp cexState1 (.deleteEntry "e1")) := by
  have hval : activeValid cexState1 := by
    intro a ha
    have h1 : some "e1" = some a := ha
    refine ⟨cexTopic1, by simp [cexState1, cexDoc1], cexEntry1, by simp [cexTopic1], ?_⟩
    simpa [cexEntry1] using Option.some.inj h1
  have hnd : topicIdsNodup cexState1 := by
    unfold topicIdsNodup
    decide
  exact ⟨activeEntryId_never_dangling.1 none cexDoc1 "e1" (by decide),
    activeEntryId_never_dangling.2 cexState1 [.deleteEntry "e1"] _
      ⟨hnd, hval⟩ (OkRun.cons trivial (OkRun.nil _))⟩

/-- C9 counterexample: at the concrete state cexState1, create-entry under
the absent topic id "missing" does not fail: it completes normally, adds
the entry to no topic (document unchanged), and even performs a state
change, switching the selection to the never-inserted entry e2. -/
theorem createEntry_missing_topic_completes :
    (handleAddNewEntry "missing" cexEntry2 cexState1).portfolioData = cexDoc1 ∧
    cexState1.activeEntryId = some "e1" ∧
    (handleAddNewEntry "missing" cexEntry2 cexState1).activeEntryId = some "e2" := by
  refine ⟨by decide, by decide, by decide⟩

/-- C9 (amended): create-entry-in-topic with a topic id that exists nowhere
in the document adds no entry anywhere — the document is returned
unchanged — but it does not fail with an error: the handler completes and
sets the active entry id to the id of the entry that was never inserted. -/
theorem handleAddNewEntry_missing_topic (topicId : String) (e : PortfolioEntry)
    (s : AppState) (h : ∀ t ∈ s.portfolioData.topics, t.id ≠ topicId) :
    (handleAddNewEntry topicId e s).portfolioData = s.portfolioData ∧
    (handleAddNewEntry topicId e s).activeEntryId = some e.id := by
  refine ⟨?_, rfl⟩
  have hm : s.portfolioData.topics.map (fun t =>
      if t.id == topicId then { t with entries := t.entries ++ [e] } else t) =
        s.portfolioData.topics :=
    map_eq_self_of_fix (fun t ht => by simp [h t ht])
  show ({ topics := s.portfolioData.topics.map (fun t =>
      if t.id == topicId then { t with entries := t.entries ++ [e] } else t) }
        : PortfolioData) = s.portfolioData
  rw [hm]

/-- Witness for the amended C9 at the concrete state cexState1. -/
theorem handleAddNewEntry_missing_topic_witness :
    (handleAddNewEntry "missing" cexEntry2 cexState1).portfolioData =
      cexState1.portfolioData ∧
    (handleAddNewEntry "missing" cexEntry2 cexState1).activeEntryId =
      some cexEntry2.id :=
  handleAddNewEntry_missing_topic "missing" cexEntry2 cexState1 (by decide)

/-- After an upsert that replaced an existing binding, lookup by the key
finds the fresh binding. -/
theorem find_put_replace (table : List (String × PortfolioData)) (key : String)
    (v : PortfolioData) (h : table.any (fun p => p.1 == key) = true) :
    (table.map (fun p => if p.1 == key then (key, v) else p)).find?
      (fun p => p.1 == key) = some (key, v) := by
  induction table with
  | nil => simp at h
  | cons p rest ih =>
      by_cases hp : (p.1 == key) = true
      · rw [List.map_cons, if_pos hp]
        exact List.find?_cons_of_pos _ (by simp)
      · have h2 : rest.any (fun p => p.1 == key) = true := by
          simp only [List.any_cons, Bool.or_eq_true] at h
          exact h.resolve_left hp
        rw [List.map_cons, if_neg hp]
        have step : List.find? (fun q => q.1 == key)
            (p :: rest.map (fun q => if (q.1 == key) = true then (key, v) else q)) =
              List.find? (fun q => q.1 == key)
                (rest.map (fun q => if (q.1 == key) = true then (key, v) else q)) :=
          List.find?_cons_of_neg _ hp
        rw [step]
        exact ih h2

/-- After an insert at the end of a table without the key, lookup by the
key finds the new binding. -/
theorem find_append_new (table : List (String × PortfolioData)) (key : String)
    (v : PortfolioData) (h : table.any (fun p => p.1 == key) = false) :
    (table ++ [(key, v)]).find? (fun p => p.1 == key) = some (key, v) := by
  induction table with
  | nil => simp
  | cons p rest ih =>
      simp only [List.any_cons, Bool.or_eq_false_iff] at h
      simp [h.1, ih h.2]

/-- Mapping a transformer that leaves the predicate unchanged commutes with
the search. -/
theorem find?_map_of_pred {α : Type} (l : List α) (g : α → α) (p : α → Bool)
    (hp : ∀ x, p (g x) = p x) :
    (l.map g).find? p = (l.find? p).map g := by
  induction l with
  | nil => rfl
  | cons x xs ih =>
      by_cases hx : p x = true
      · simp [List.find?_cons, hp, hx]
      · simp only [Bool.not_eq_true] at hx
        simp [List.find?_cons, hp, hx, ih]

/-- C3: saving a document then loading returns it — for the IndexedDB
adapter (upsert and get under the fixed key "main"), and for the Drive
adapter (find-by-name-or-create of the fixed-name file in the app folder),
the latter provided the server-assigned id of a newly created file does
not collide with an existing file id. -/
theorem adapters_roundtrip (s : IDBStore) (d : DriveState) (data : PortfolioData)
    (hfresh : ∀ f ∈ d.files, f.id ≠ d.nextId) :
    loadPortfolioData (savePortfolioData s data) = some data ∧
    loadPortfolioFromDrive (savePortfolioToDrive d data) = some data := by
  constructor
  · unfold loadPortfolioData savePortfolioData idbPut idbGet
    by_cases hany : s.table.any (fun p => p.1 == DATA_KEY) = true
    · simp only [hany, if_true, find_put_replace s.table DATA_KEY data hany]
      rfl
    · simp only [Bool.not_eq_true] at hany
      simp only [hany, Bool.false_eq_true, if_false,
        find_append_new s.table DATA_KEY data hany]
      rfl
  · unfold loadPortfolioFromDrive savePortfolioToDrive
    cases hfind : findPortfolioFileId d with
    | some fileId =>
        have hid : ∀ f : DriveFile,
            ((if f.id == fileId then { f with content := data } else f) : DriveFile).id
              = f.id := by
          intro f
          by_cases h : (f.id == fileId) = true <;> simp [h]
        have hname : ∀ f : DriveFile,
            ((if f.id == fileId then { f with content := data } else f) : DriveFile).name
              = f.name := by
          intro f
          by_cases h : (f.id == fileId) = true <;> simp [h]
        obtain ⟨f0, hf0⟩ : ∃ f0, d.files.find? (fun f => f.name == FILE_NAME) = some f0 := by
          unfold findPortfolioFileId at hfind
          cases hf : d.files.find? (fun f => f.name == FILE_NAME) with
          | none => rw [hf] at hfind; cases hfind
          | some f0 => exact ⟨f0, rfl⟩
        have hfid : f0.id = fileId := by
          unfold findPortfolioFileId at hfind
          rw [hf0] at hfind
          simpa using hfind
        have hfindNew : findPortfolioFileId
            { d with files := d.files.map (fun f =>
                if f.id == fileId then { f with content := data } else f) } = some fileId := by
          unfold findPortfolioFileId
          rw [find?_map_of_pred d.files _ (fun f => f.name == FILE_NAME)
            (fun f => by dsimp only; rw [hname f])]
          rw [hf0]
          simp [hid, hfid]
        simp only [hfindNew]
        rw [find?_map_of_pred d.files _ (fun f => f.id == fileId)
          (fun f => by dsimp only; rw [hid f])]
        cases hf2 : d.files.find? (fun f => f.id == fileId) with
        | none =>
            exfalso
            have : f0 ∈ d.files := List.mem_of_find?_eq_some hf0
            have hnone := List.find?_eq_none.mp hf2 f0 this
            simp [hfid] at hnone
        | some f1 =>
            have hp := List.find?_some hf2
            simp [hp]
            rw [if_pos (by simpa using hp)]
    | none =>
        have hnone : d.files.find? (fun f => f.name == FILE_NAME) = none := by
          unfold findPortfolioFileId at hfind
          cases hf : d.files.find? (fun f => f.name == FILE_NAME) with
          | none => rfl
          | some f0 => rw [hf] at hfind; cases hfind
        have hfindNew : findPortfolioFileId
            { d with files := d.files ++
                [{ id := d.nextId, name := FILE_NAME, content := data }] }
              = some d.nextId := by
          unfold findPortfolioFileId
          rw [List.find?_append, hnone]
          simp
        simp only [hfindNew]
        rw [List.find?_append]
        have hnone2 : d.files.find? (fun f => f.id == d.nextId) = none := by
          apply List.find?_eq_none.mpr
          intro f hf
          simpa using hfresh f hf
        rw [hnone2]
        simp

/-- Witness for C3: round-tripping the concrete document through an empty
key-value store and an empty Drive folder. -/
theorem adapters_roundtrip_witness :
    loadPortfolioData (savePortfolioData { table := [] } cexDoc1) = some cexDoc1 ∧
    loadPortfolioFromDrive
      (savePortfolioToDrive { files := [], nextId := "f1" } cexDoc1) = some cexDoc1 :=
  adapters_roundtrip { table := [] } { files := [], nextId := "f1" } cexDoc1
    (by intro f hf; cases hf)

/-- C4: two edits inside the debounce window cause exactly one onUpdate
call, carrying the second edit: the second triggerUpdate replaces the
first timer, a fire attempt before the first deadline does nothing, and
the eventual fire delivers only the latest updates.  With autosave
disabled an edit merely sets hasPendingChanges and produces no call, and
only handleManualSave then produces one. -/
theorem debounce_single_save (cfg : EditorCfg) (t1 tmid t2 t3 : Nat)
    (u1 u2 : EditorUpdates) :
    (cfg.autoSaveEnabled = true →
      tmid < t1 + cfg.autoSaveInterval →
      t2 + cfg.autoSaveInterval ≤ t3 →
      (timerFire t3 (triggerUpdate cfg t2 u2
        (timerFire tmid (triggerUpdate cfg t1 u1 editorStart)))).savedCalls = [u2]) ∧
    (cfg.autoSaveEnabled = false →
      ∀ s : EditorState,
        (triggerUpdate cfg t2 u2 s).savedCalls = s.savedCalls ∧
        (triggerUpdate cfg t2 u2 s).hasPendingChanges = true ∧
        (handleManualSave u2 s).savedCalls = s.savedCalls ++ [u2]) := by
  constructor
  · intro hen hmid hdue
    have h1 : triggerUpdate cfg t1 u1 editorStart =
        { pendingTimeout := some (t1 + cfg.autoSaveInterval, u1),
          hasPendingChanges := false, savedCalls := [] } := by
      simp [triggerUpdate, hen, editorStart]
    have h2 : timerFire tmid (triggerUpdate cfg t1 u1 editorStart) =
        triggerUpdate cfg t1 u1 editorStart := by
      rw [h1]
      simp [timerFire, Nat.not_le.mpr hmid]
    rw [h2, h1]
    simp [triggerUpdate, hen, timerFire, hdue]
  · intro hdis s
    refine ⟨?_, ?_, rfl⟩ <;> simp [triggerUpdate, hdis]

/-- Witness for C4 at concrete times: edits at 0 and 500 with a 1000 ms
interval, a fire attempt at 900, and the final fire at 1500. -/
theorem debounce_single_save_witness :
    (timerFire 1500 (triggerUpdate { autoSaveEnabled := true, autoSaveInterval := 1000 }
        500 { title := "Updated", content := "b" }
      (timerFire 900 (triggerUpdate { autoSaveEnabled := true, autoSaveInterval := 1000 }
        0 { title := "t", content := "a" } editorStart)))).savedCalls =
      [{ title := "Updated", content := "b" }] :=
  (debounce_single_save { autoSaveEnabled := true, autoSaveInterval := 1000 }
    0 900 500 1500 { title := "t", content := "a" }
    { title := "Updated", content := "b" }).1 rfl (by decide) (by decide)

/-- C5 counterexample: importing the parseable value \x7b"foo": 1\x7d, which
matches neither schema, leaves the state untouched — including the alert
list, so no user-visible invalid-file message is shown, contrary to the
claim. -/
theorem invalid_schema_import_is_silent :
    (handleFileSelected 0 "now" (some "e1")
      (some (.obj [("foo", .num 1)])) importState0).alerts = [] ∧
    (handleFileSelected 0 "now" (some "e1")
      (some (.obj [("foo", .num 1)])) importState0).portfolioData =
        importState0.portfolioData ∧
    (handleFileSelected 0 "now" (some "e1")
      (some (.obj [("foo", .num 1)])) importState0).activeEntryId =
        importState0.activeEntryId := by
  refine ⟨?_, ?_, ?_⟩ <;>
    simp [handleFileSelected, processLoadedData, Json.getArray, Json.getField,
      Json.lookupField, importState0]

/-- C5 (amended): a load/import payload matching neither schema leaves the
in-memory document and the selection exactly as they were — but silently:
no alert is raised for it.  The user-visible invalid-file message appears
only when the file text fails to parse as JSON, and that path too leaves
document and selection unchanged. -/
theorem invalid_import_state_unchanged (nowMs : Nat) (nowIso : String)
    (la : Option String) (data : Json) (s : ImportState)
    (hbad : processLoadedData nowMs nowIso data = none) :
    handleFileSelected nowMs nowIso la (some data) s = s ∧
    (handleFileSelected nowMs nowIso la none s).portfolioData = s.portfolioData ∧
    (handleFileSelected nowMs nowIso la none s).activeEntryId = s.activeEntryId ∧
    (handleFileSelected nowMs nowIso la none s).alerts = s.alerts ++ [importFailAlert] := by
  refine ⟨?_, rfl, rfl, rfl⟩
  simp [handleFileSelected, hbad]

/-- Witness for the amended C5 at the concrete bad payload. -/
theorem invalid_import_state_unchanged_witness :
    handleFileSelected 0 "now" (some "e1")
      (some (.obj [("foo", .num 1)])) importState0 = importState0 :=
  (invalid_import_state_unchanged 0 "now" (some "e1") (.obj [("foo", .num 1)])
    importState0
    (by simp [processLoadedData, Json.getArray, Json.getField, Json.lookupField])).1

/-- C8 counterexample: with a handle held and last-written timestamp 1000,
a file whose timestamp is 10 differs from it far beyond the tolerance, yet
no prompt is raised — the code only reacts to strictly newer timestamps. -/
theorem older_external_change_not_surfaced :
    10 + 2 < 1000 ∧
    checkForExternalChanges true (some 1000) 10 = ExternalCheckResult.noPrompt := by
  decide

/-- C8 (amended): while a handle is held and a nonzero write timestamp is
recorded, the focus check surfaces the reload-or-overwrite prompt exactly
when the file's timestamp is newer than the recorded one by more than the
2 ms tolerance; within the tolerance, or for an older file, no prompt
occurs, and when it does prompt the resolution is the user's, never
silent. -/
theorem external_change_prompt_iff (lm fileLm : Nat) (h : lm ≠ 0) :
    checkForExternalChanges true (some lm) fileLm =
      ExternalCheckResult.promptReloadOrOverwrite ↔ lm + 2 < fileLm := by
  simp only [checkForExternalChanges, Bool.not_true, Bool.false_eq_true, if_false, h]
  constructor
  · intro hres
    by_contra hnot
    simp [hnot] at hres
  · intro hlt
    simp [hlt]

/-- Witness for the amended C8: timestamp 2000 on disk against 1000
recorded raises the prompt. -/
theorem external_change_prompt_iff_witness :
    checkForExternalChanges true (some 1000) 2000 =
      ExternalCheckResult.promptReloadOrOverwrite :=
  (external_change_prompt_iff 1000 2000 (by decide)).mpr (by decide)
